import Mathlib

/-!
Verification development for the media-download bot
(src/app.py, src/utils/downloader.py).

The development shallowly embeds the pure content of the source:
byte-level MD5 (hashlib.md5), UTF-8 encoding (str.encode), the
correlation URL cache (_url_cache with _cleanup_url_cache,
_store_url_in_cache, _get_url_from_cache), the action-keyboard payload
logic (build_action_keyboard), the callback routing and parsing
(app.py's CallbackQueryHandler pattern and handle_convert_to_audio),
platform classification (detect_platform over PLATFORM_PATTERNS),
Piped stream selection (_select_best_piped_stream and the inline
muxed/split selection of _download_youtube_via_piped), the delivery
classification and multi-file send loop (send_file_with_buttons,
send_files_with_buttons), and the post-engine outcome logic of
download_direct and download_tiktok_special.

Side effects (Telegram calls, filesystem, subprocesses) are modelled by
explicit data: a send is a boolean outcome attached to each file, a
directory listing is a list of (name, ctime) pairs, and the cache is an
insertion-ordered association list mirroring a Python dict.
-/

namespace Hunzii

/-! ### Python-style helpers -/

/-- Stable insertion of `y` into a descending-sorted list: `y` goes in
front of the first element it strictly beats, and after every element
that is at least as large.  Used to model Python's stable
`list.sort(key=..., reverse=True)`. -/
def insertDesc (lt : α → α → Prop) [DecidableRel lt] (y : α) : List α → List α
  | [] => [y]
  | z :: zs => if lt y z then z :: insertDesc lt y zs else y :: z :: zs

/-- Model of Python's stable `list.sort(key=..., reverse=True)`:
a stable insertion sort into descending order. -/
def sortDesc (lt : α → α → Prop) [DecidableRel lt] (l : List α) : List α :=
  l.foldr (insertDesc lt) []

/-- Model of Python's `max(iterable, key=...)`: the first element
attaining the maximal key (later elements replace the current best only
when strictly greater).  `none` on an empty list (Python raises). -/
def pyMax (lt : α → α → Prop) [DecidableRel lt] : List α → Option α
  | [] => none
  | x :: xs => some (xs.foldl (fun b y => if lt b y then y else b) x)

/-! ### UTF-8 encoding (Python's str.encode()) -/

/-- UTF-8 bytes of one Unicode scalar value, as natural numbers. -/
def charUtf8 (c : Char) : List Nat :=
  let n := c.toNat
  if n < 128 then [n]
  else if n < 2048 then [192 + n / 64, 128 + n % 64]
  else if n < 65536 then [224 + n / 4096, 128 + (n / 64) % 64, 128 + n % 64]
  else [240 + n / 262144, 128 + (n / 4096) % 64, 128 + (n / 64) % 64, 128 + n % 64]

/-- UTF-8 encoding of a string, as a byte list; models Python's
`s.encode('utf-8')` (the default encoding used by the source). -/
def utf8Bytes (s : String) : List Nat :=
  s.data.foldr (fun c acc => charUtf8 c ++ acc) []

/-! ### MD5 (hashlib.md5) -/

/-- Reduction modulo 2^32: the word size of MD5 arithmetic. -/
def m32 (n : Nat) : Nat := n % 4294967296

/-- Bitwise complement on 32-bit words (for words below 2^32). -/
def not32 (x : Nat) : Nat := 4294967295 - x

/-- Left rotation of a 32-bit word by `s` bits. -/
def rotl32 (x s : Nat) : Nat := m32 (x <<< s) ||| (x >>> (32 - s))

/-- The 64 MD5 round constants: floor(2^32 * abs(sin(i+1))). -/
def md5K : List Nat :=
  [0xd76aa478, 0xe8c7b756, 0x242070db, 0xc1bdceee,
   0xf57c0faf, 0x4787c62a, 0xa8304613, 0xfd469501,
   0x698098d8, 0x8b44f7af, 0xffff5bb1, 0x895cd7be,
   0x6b901122, 0xfd987193, 0xa679438e, 0x49b40821,
   0xf61e2562, 0xc040b340, 0x265e5a51, 0xe9b6c7aa,
   0xd62f105d, 0x02441453, 0xd8a1e681, 0xe7d3fbc8,
   0x21e1cde6, 0xc33707d6, 0xf4d50d87, 0x455a14ed,
   0xa9e3e905, 0xfcefa3f8, 0x676f02d9, 0x8d2a4c8a,
   0xfffa3942, 0x8771f681, 0x6d9d6122, 0xfde5380c,
   0xa4beea44, 0x4bdecfa9, 0xf6bb4b60, 0xbebfbc70,
   0x289b7ec6, 0xeaa127fa, 0xd4ef3085, 0x04881d05,
   0xd9d4d039, 0xe6db99e5, 0x1fa27cf8, 0xc4ac5665,
   0xf4292244, 0x432aff97, 0xab9423a7, 0xfc93a039,
   0x655b59c3, 0x8f0ccc92, 0xffeff47d, 0x85845dd1,
   0x6fa87e4f, 0xfe2ce6e0, 0xa3014314, 0x4e0811a1,
   0xf7537e82, 0xbd3af235, 0x2ad7d2bb, 0xeb86d391]

/-- The 64 per-round left-rotation amounts of MD5. -/
def md5S : List Nat :=
  [7, 12, 17, 22, 7, 12, 17, 22, 7, 12, 17, 22, 7, 12, 17, 22,
   5, 9, 14, 20, 5, 9, 14, 20, 5, 9, 14, 20, 5, 9, 14, 20,
   4, 11, 16, 23, 4, 11, 16, 23, 4, 11, 16, 23, 4, 11, 16, 23,
   6, 10, 15, 21, 6, 10, 15, 21, 6, 10, 15, 21, 6, 10, 15, 21]

/-- Little-endian byte decomposition: `k` bytes of `n`. -/
def leBytes : Nat → Nat → List Nat
  | 0, _ => []
  | k + 1, n => (n % 256) :: leBytes k (n / 256)

/-- Group a byte list into little-endian 32-bit words. -/
def leWords : List Nat → List Nat
  | b0 :: b1 :: b2 :: b3 :: rest =>
      (b0 + 256 * b1 + 65536 * b2 + 16777216 * b3) :: leWords rest
  | _ => []

/-- MD5 padding: append 0x80, zero bytes to 56 mod 64, then the bit
length as 8 little-endian bytes. -/
def md5pad (msg : List Nat) : List Nat :=
  let z := (120 - (msg.length + 1) % 64) % 64
  msg ++ [128] ++ List.replicate z 0 ++ leBytes 8 ((msg.length * 8) % 18446744073709551616)

/-- The nonlinear function and message index of MD5 round `i`. -/
def md5FG (i b c d : Nat) : Nat × Nat :=
  if i < 16 then ((b &&& c) ||| (not32 b &&& d), i)
  else if i < 32 then ((d &&& b) ||| (not32 d &&& c), (5 * i + 1) % 16)
  else if i < 48 then (b ^^^ c ^^^ d, (3 * i + 5) % 16)
  else (c ^^^ (b ||| not32 d), (7 * i) % 16)

/-- Process one 64-byte chunk of the padded message. -/
def md5Chunk (st : Nat × Nat × Nat × Nat) (chunk : List Nat) : Nat × Nat × Nat × Nat :=
  let M := leWords chunk
  let r := (List.range 64).foldl
    (fun (s : Nat × Nat × Nat × Nat) i =>
      let A := s.1; let B := s.2.1; let C := s.2.2.1; let D := s.2.2.2
      let fg := md5FG i B C D
      let f := m32 (fg.1 + A + md5K.getD i 0 + M.getD fg.2 0)
      (D, m32 (B + rotl32 f (md5S.getD i 0)), B, C)) st
  (m32 (st.1 + r.1), m32 (st.2.1 + r.2.1), m32 (st.2.2.1 + r.2.2.1), m32 (st.2.2.2 + r.2.2.2))

/-- Split a list into 64-element chunks (fuel-based structural
recursion so that the definition reduces inside the kernel; the fuel
`l.length` always suffices since each step consumes at least one
element). -/
def chunks64Aux : Nat → List Nat → List (List Nat)
  | 0, _ => []
  | _, [] => []
  | fuel + 1, x :: rest => (x :: rest).take 64 :: chunks64Aux fuel (rest.drop 63)

/-- Split a list into 64-element chunks. -/
def chunks64 (l : List Nat) : List (List Nat) := chunks64Aux l.length l

/-- Lowercase hex digit of a value below 16. -/
def hexDigit (n : Nat) : Char := if n < 10 then Char.ofNat (48 + n) else Char.ofNat (87 + n)

/-- Two lowercase hex digits of one byte. -/
def byteHex (b : Nat) : List Char := [hexDigit (b / 16), hexDigit (b % 16)]

/-- MD5 digest of a byte list as a 32-character lowercase hex string;
models `hashlib.md5(data).hexdigest()`. -/
def md5hex (msg : List Nat) : String :=
  let st := (chunks64 (md5pad msg)).foldl md5Chunk
    (0x67452301, 0xefcdab89, 0x98badcfe, 0x10325476)
  let digest := leBytes 4 st.1 ++ leBytes 4 st.2.1 ++ leBytes 4 st.2.2.1 ++ leBytes 4 st.2.2.2
  String.mk (digest.foldr (fun b acc => byteHex b ++ acc) [])

/-! ### Correlation URL cache (downloader.py lines 17-19, 230-254)

The process-global `_url_cache` dict maps an 8-hex-char key to
`(url, platform, timestamp)`.  A Python dict keeps at most one value
per key, assignment to an existing key overwrites in place, and new
keys append; an insertion-ordered association list models it.  Time is
a natural number of seconds (`time.time()`).  Entries written by
`_store_url_in_cache` always carry the 3-tuple shape, so the legacy
2-tuple branch of `_get_url_from_cache` is dead for this model. -/

/-- A cache entry: (url, platform, creation timestamp). -/
abbrev CacheEntry := String × String × Nat

/-- The `_url_cache` dict as an insertion-ordered association list. -/
abbrev UrlCache := List (String × CacheEntry)

/-- TTL `_cache_cleanup_time = 3600` seconds (1 hour). -/
def cacheCleanupTime : Nat := 3600

/-- Dict lookup: the value of the (unique) entry carrying the key. -/
def cacheLookup : UrlCache → String → Option CacheEntry
  | [], _ => none
  | (k0, v0) :: rest, k => if k0 = k then some v0 else cacheLookup rest k

/-- Dict assignment `d[k] = v`: overwrite in place, else append. -/
def cacheInsert (k : String) (v : CacheEntry) : UrlCache → UrlCache
  | [] => [(k, v)]
  | (k0, v0) :: rest => if k0 = k then (k, v) :: rest else (k0, v0) :: cacheInsert k v rest

/-- Embeds `_cleanup_url_cache`: delete every entry whose age at `now`
strictly exceeds the TTL (the source tests `current_time - timestamp >
_cache_cleanup_time`). -/
def cleanupUrlCache (now : Nat) (c : UrlCache) : UrlCache :=
  c.filter (fun kv => decide (now - kv.2.2.2 ≤ cacheCleanupTime))

/-- The key `hashlib.md5(f"{platform}|{url}".encode()).hexdigest()[:8]`. -/
def mkKey (platform url : String) : String :=
  (md5hex (utf8Bytes (platform ++ "|" ++ url))).take 8

/-- Embeds `_store_url_in_cache`: clean up expired entries, compute the
truncated-MD5 key, insert/overwrite, return the key (and new cache). -/
def storeUrlInCache (c : UrlCache) (now : Nat) (url platform : String) : String × UrlCache :=
  let c1 := cleanupUrlCache now c
  let key := mkKey platform url
  (key, cacheInsert key (url, platform, now) c1)

/-- Embeds `_get_url_from_cache`: look the key up and project the
(url, platform) pair; `none` models the `(None, None)` miss.  The
lookup mutates nothing — it returns no new cache. -/
def getUrlFromCache (c : UrlCache) (k : String) : Option (String × String) :=
  (cacheLookup c k).map (fun e => (e.1, e.2.1))

/-! ### Action keyboard and the convert-to-audio callback
(downloader.py lines 256-273, 458-479; app.py line 60)

Only the dynamic third button matters to the claims: the two static
link buttons carry no callback data.  `buildActionKeyboard` returns the
dynamic button's `callback_data` string together with the possibly
updated cache. -/

/-- The direct payload `convert_audio|<platform>|<url>`. -/
def directPayload (platform url : String) : String :=
  "convert_audio|" ++ platform ++ "|" ++ url

/-- Embeds the dynamic-button logic of `build_action_keyboard`: the
direct payload when its UTF-8 encoding is at most 64 bytes, otherwise
store the url in the cache and use `convert_audio_cached|<key>`. -/
def buildActionKeyboard (c : UrlCache) (now : Nat) (url platform : String) :
    String × UrlCache :=
  let cd := directPayload platform url
  if (utf8Bytes cd).length ≤ 64 then (cd, c)
  else
    let s := storeUrlInCache c now url platform
    ("convert_audio_cached|" ++ s.1, s.2)

/-- Embeds app.py line 60: `CallbackQueryHandler(handle_convert_to_audio,
pattern=r"^convert_audio\|")`.  The pattern is applied with `re.match`
(anchored at the start) and is a literal, so it matches exactly the
strings starting with `convert_audio|`. -/
def callbackRouteMatches (data : String) : Bool :=
  "convert_audio|".data.isPrefixOf data.data

/-- Embeds the parsing/resolution part of `handle_convert_to_audio`:
for `convert_audio_cached|<key>` resolve through the cache (a miss
clears the keyboard and stops — `none`); otherwise `split('|', 2)`
must give three parts `_, platform, original_url` (the first part is
not checked).  `some (url, platform)` is the pair the audio-only
acquisition then runs on. -/
def resolveCallback (c : UrlCache) (data : String) : Option (String × String) :=
  if "convert_audio_cached|".data.isPrefixOf data.data then
    getUrlFromCache c (data.drop 21)
  else
    match data.splitOn "|" with
    | _ :: p :: u :: rest => some (String.intercalate "|" (u :: rest), p)
    | _ => none

/-! ### Platform classification (downloader.py lines 34-44, 54-59) -/

/-- Embeds `PLATFORM_PATTERNS` in dict (insertion) order.  Each source
regex has the shape
`(?:https?://)?(?:www\.)?(?:alt1|alt2|...)`
with literal (dot-escaped) alternatives; since both leading groups are
optional, `re.search` succeeds on a URL exactly when some alternative
occurs in it literally, so each pattern is kept as its alternative
list. -/
def PLATFORM_PATTERNS : List (String × List String) :=
  [("facebook", ["facebook.com", "fb.com", "m.facebook.com"]),
   ("instagram", ["instagram.com", "instagr.am"]),
   ("tiktok", ["tiktok.com", "vm.tiktok.com"]),
   ("douyin", ["douyin.com", "iesdouyin.com"]),
   ("youtube", ["youtube.com", "youtu.be", "m.youtube.com"]),
   ("twitter", ["twitter.com", "x.com", "t.co"]),
   ("reddit", ["reddit.com", "redd.it"]),
   ("pinterest", ["pinterest.com", "pin.it"]),
   ("qqmusic", ["y.qq.com", "i.y.qq.com"])]

/-- Embeds `re.search(pattern, url)` for one platform pattern: a
case-sensitive substring search of some alternative anywhere in the
URL (path and query included). -/
def reSearchPattern (alts : List String) (url : String) : Bool :=
  alts.any (fun d => decide (d.data <:+: url.data))

/-- Embeds `detect_platform`: the first pattern in dict order whose
search succeeds wins; no match yields `"unknown"`. -/
def detectPlatform (url : String) : String :=
  match PLATFORM_PATTERNS.find? (fun pp => reSearchPattern pp.2 url) with
  | some pp => pp.1
  | none => "unknown"

/-- The characters after the first occurrence of `://`, when any. -/
def afterSchemeMarker : List Char → Option (List Char)
  | ':' :: '/' :: '/' :: rest => some rest
  | _ :: rest => afterSchemeMarker rest
  | [] => none

/-- Follows the spec's words (§6): the host component of a URL — the
part after `://` and before the first `/`, `?` or `#` (urlparse's
netloc). For comparison with the source's whole-URL search. -/
def specHost (url : String) : String :=
  match afterSchemeMarker url.data with
  | some rest => String.mk (rest.takeWhile (fun c => !(c == '/' || c == '?' || c == '#')))
  | none => ""

/-- Follows the spec's words (§6, §8): "case-insensitive host match" —
some alternative of the platform's pattern occurs in the URL's host,
compared case-insensitively.  For comparison with the source's
case-sensitive whole-URL search. -/
def specHostMatches (alts : List String) (url : String) : Bool :=
  alts.any (fun d =>
    decide ((d.data.map Char.toLower) <:+: ((specHost url).data.map Char.toLower)))

/-! ### Piped stream selection (downloader.py lines 122-132, 163-192)

A Piped stream descriptor is a JSON dict; `.get` of a missing or null
field is modelled by `Option`. -/

/-- A Piped stream descriptor with the fields the selection reads. -/
structure PStream where
  container : Option String := none
  mimeType : Option String := none
  qualityLabel : Option String := none
  quality : Option String := none
  videoOnly : Bool := false
  bitrate : Option Nat := none
  deriving DecidableEq, Repr

/-- Python's `a or b or ''` over two optional strings: the first
truthy (present and non-empty) one, else the empty string. -/
def pyOrStr (a b : Option String) : String :=
  match a with
  | some s => if s = "" then (match b with | some t => t | none => "") else s
  | none => match b with | some t => t | none => ""

/-- Digit run to a number, as Python's `int` on a decimal string. -/
def digitsToNat (ds : List Char) : Nat :=
  ds.foldl (fun n c => 10 * n + (c.toNat - 48)) 0

/-- Embeds `parse_quality` / the inner `quality_key`:
`int(re.search(r"(\d+)", q).group(1))` with `q = s.get('qualityLabel')
or s.get('quality') or ''`, and 0 when no digit occurs.  `re.search`
captures the first contiguous digit run (the model reads `\d` as the
ASCII digits, the only digits occurring in quality labels). -/
def parseQuality (s : PStream) : Nat :=
  let q := pyOrStr s.qualityLabel s.quality
  digitsToNat ((q.data.dropWhile (fun c => !c.isDigit)).takeWhile (fun c => c.isDigit))

/-- Quality comparison used by the descending sorts. -/
def qualityLt (a b : PStream) : Prop := parseQuality a < parseQuality b

instance : DecidableRel qualityLt := fun a b => Nat.decLt (parseQuality a) (parseQuality b)

/-- The MP4 filter of `_select_best_piped_stream`:
`s.get('container') == 'mp4' or (s.get('mimeType') or
'').startswith('video/mp4')`. -/
def isMp4Stream (s : PStream) : Bool :=
  decide (s.container = some "mp4")
    || "video/mp4".data.isPrefixOf (s.mimeType.getD "").data

/-- Embeds `_select_best_piped_stream`: filter to MP4 streams, return
`None` when none remain, else stable-sort by parsed quality descending
and take the first.  The source consults no video-only flag here. -/
def selectBestPipedStream (streams : List PStream) : Option PStream :=
  let mp4Streams := streams.filter isMp4Stream
  if mp4Streams = [] then none
  else (sortDesc qualityLt mp4Streams).head?

/-- Follows the spec's words (§4.3 `selectMuxed`): "filters to
MP4-container, non-video-only streams, ranks by parsed numeric quality
descending, returns the top one or none if no MP4 candidate exists".
For comparison with the source's `_select_best_piped_stream`. -/
def selectMuxedSpec (streams : List PStream) : Option PStream :=
  let cand := streams.filter (fun s => isMp4Stream s && !s.videoOnly)
  if cand = [] then none
  else (sortDesc qualityLt cand).head?

/-- Python's case-lowering of a mime string (ASCII; mime types are
ASCII). -/
def lowerString (s : String) : String := String.mk (s.data.map Char.toLower)

/-- Embeds `audio_rank`: score 2 when the lowercased mime type contains
`mp4`, `m4a` or `aac` (MPEG-4/AAC family), else 1; then the bitrate
(`a.get('bitrate') or 0`).  Python compares the tuples
lexicographically. -/
def audioRank (a : PStream) : Nat × Nat :=
  let mime := lowerString (a.mimeType.getD "")
  let score : Nat :=
    if decide ("mp4".data <:+: mime.data) || decide ("m4a".data <:+: mime.data)
        || decide ("aac".data <:+: mime.data) then 2 else 1
  (score, a.bitrate.getD 0)

/-- Lexicographic order on audio ranks (Python tuple comparison). -/
def rankLt (x y : Nat × Nat) : Prop := x.1 < y.1 ∨ (x.1 = y.1 ∧ x.2 < y.2)

instance : DecidableRel rankLt := fun _ _ => instDecidableOr

/-- Audio comparison used by the descending audio sort. -/
def audioLt (a b : PStream) : Prop := rankLt (audioRank a) (audioRank b)

instance : DecidableRel audioLt := fun _ _ => instDecidableOr

/-- Embeds the split-selection of `_download_youtube_via_piped`
(lines 179-192): filter the video streams to video-only and
stable-sort by quality descending, stable-sort the audio streams by
`audio_rank` descending, and when both lists are non-empty pair their
heads (`if video_only and a_streams: v = video_only[0]; a =
a_streams[0]`); otherwise nothing is selected. -/
def selectSplit (vStreams aStreams : List PStream) : Option (PStream × PStream) :=
  let videoOnly := sortDesc qualityLt (vStreams.filter (fun s => s.videoOnly))
  let audios := sortDesc audioLt aStreams
  match videoOnly.head?, audios.head? with
  | some v, some a => some (v, a)
  | _, _ => none

/-! ### Delivery classification and dispatch
(downloader.py lines 275-315) -/

/-- The four delivery buckets: the reply channel a file is sent on. -/
inductive FileBucket | video | image | audio | document
  deriving DecidableEq, Repr

/-- Video extensions of the delivery dispatcher. -/
def videoExts : List String := [".mp4", ".avi", ".mov", ".mkv"]

/-- Image extensions of the delivery dispatcher. -/
def imageExts : List String := [".jpg", ".jpeg", ".png", ".gif", ".webp"]

/-- Audio extensions of the delivery dispatcher. -/
def audioExts : List String := [".mp3", ".m4a", ".flac", ".wav", ".aac", ".ogg"]

/-- Python's `name.endswith(tuple)`: some extension is a suffix. -/
def endsWithAny (name : String) (exts : List String) : Bool :=
  exts.any (fun e => decide (e.data <:+ name.data))

/-- Embeds the classification of `send_file_with_buttons` /
`send_files_with_buttons`: `filename.lower().endswith(...)` through
the video, image and audio tuples in order, else a generic document.
The returned bucket is the reply channel used (`reply_video`,
`reply_photo`, `reply_audio`, `reply_document`). -/
def classifyDelivery (filename : String) : FileBucket :=
  let n := lowerString filename
  if endsWithAny n videoExts then .video
  else if endsWithAny n imageExts then .image
  else if endsWithAny n audioExts then .audio
  else .document

/-- Embeds the loop of `send_files_with_buttons` over a list of
(file, send outcome) pairs; a `false` send models
`reply_*` raising.  Result: (files sent, local files deleted, whether
the outer `except` logged an error).  Each iteration sends inside a
`try` whose `finally` removes the file; an exception then propagates
out of the `for` to the function-level `except`, which logs and
returns — so the failing file is deleted but the remaining files are
neither sent nor deleted, and no exception reaches the caller. -/
def sendFilesWithButtons : List (String × Bool) → List String × List String × Bool
  | [] => ([], [], false)
  | (f, ok) :: rest =>
    if ok then
      let r := sendFilesWithButtons rest
      (f :: r.1, f :: r.2.1, r.2.2)
    else ([], [f], true)

/-! ### Post-engine outcome of the generic extractor
(downloader.py lines 336-365, 390-416)

The engine call `yt_dlp.YoutubeDL(opts).download([url])` is modelled by
its integer result, and the target directory by the list of (name,
ctime) pairs found in it afterwards. -/

/-- Creation-time order used by `max(files, key=getctime)`. -/
def ctimeLt (a b : String × Nat) : Prop := a.2 < b.2

instance : DecidableRel ctimeLt := fun a b => Nat.decLt a.2 b.2

/-- Embeds the tail of `download_direct` after the engine call: on a
zero result, send the newest file when the directory has one and
report success either way (`return True` on both branches); on a
non-zero result report failure.  Result: (reported success, file
sent). -/
def downloadDirectOutcome (engineResult : Int) (files : List (String × Nat)) :
    Bool × Option String :=
  if engineResult = 0 then
    match pyMax ctimeLt files with
    | some f => (true, some f.1)
    | none => (true, none)
  else (false, none)

/-- The video-extension filter of the TikTok yt-dlp fallback
(line 353): note it admits `.webm`, unlike the delivery buckets. -/
def isTiktokVideoFile (name : String) : Bool :=
  endsWithAny (lowerString name) [".mp4", ".avi", ".mov", ".mkv", ".webm"]

/-- Embeds the tail of the yt-dlp fallback of `download_tiktok_special`
after the engine call: on a zero result, send the newest video file
and succeed when one exists, else report failure; on a non-zero result
report failure. -/
def tiktokFallbackOutcome (engineResult : Int) (files : List (String × Nat)) :
    Bool × Option String :=
  if engineResult = 0 then
    let videoFiles := files.filter (fun f => isTiktokVideoFile f.1)
    match pyMax ctimeLt videoFiles with
    | some f => (true, some f.1)
    | none => (false, none)
  else (false, none)

/-! ### Helper lemmas: stable descending sort -/

section SortLemmas

variable {α : Type} {lt : α → α → Prop} [DecidableRel lt]

lemma mem_insertDesc {y a : α} {l : List α} :
    a ∈ insertDesc lt y l ↔ a = y ∨ a ∈ l := by
  induction l with
  | nil => simp [insertDesc]
  | cons z zs ih =>
    simp only [insertDesc]
    split
    · simp only [List.mem_cons, ih]
      tauto
    · simp only [List.mem_cons]

lemma mem_sortDesc {a : α} {l : List α} : a ∈ sortDesc lt l ↔ a ∈ l := by
  induction l with
  | nil => simp [sortDesc]
  | cons x xs ih =>
    show a ∈ insertDesc lt x (sortDesc lt xs) ↔ _
    rw [mem_insertDesc, ih]
    simp

lemma insertDesc_ne_nil {y : α} {l : List α} : insertDesc lt y l ≠ [] := by
  cases l with
  | nil => simp [insertDesc]
  | cons z zs => simp only [insertDesc]; split <;> simp

lemma sortDesc_eq_nil_iff {l : List α} : sortDesc lt l = [] ↔ l = [] := by
  cases l with
  | nil => simp [sortDesc]
  | cons x xs =>
    constructor
    · intro h; exact absurd h insertDesc_ne_nil
    · intro h; cases h

lemma pairwise_insertDesc
    (hasym : ∀ a b, lt a b → ¬ lt b a)
    (htrans : ∀ a b c, ¬ lt a b → ¬ lt b c → ¬ lt a c)
    {y : α} {l : List α} (h : l.Pairwise (fun a b => ¬ lt a b)) :
    (insertDesc lt y l).Pairwise (fun a b => ¬ lt a b) := by
  induction l with
  | nil => simp [insertDesc]
  | cons z zs ih =>
    rw [List.pairwise_cons] at h
    simp only [insertDesc]
    split
    · rename_i hyz
      rw [List.pairwise_cons]
      refine ⟨fun b hb => ?_, ih h.2⟩
      rcases mem_insertDesc.1 hb with rfl | hb2
      · exact hasym _ _ hyz
      · exact h.1 b hb2
    · rename_i hyz
      rw [List.pairwise_cons]
      refine ⟨fun b hb => ?_, List.pairwise_cons.2 h⟩
      rcases List.mem_cons.1 hb with rfl | hb2
      · exact hyz
      · exact htrans y z b hyz (h.1 b hb2)

lemma pairwise_sortDesc
    (hasym : ∀ a b, lt a b → ¬ lt b a)
    (htrans : ∀ a b c, ¬ lt a b → ¬ lt b c → ¬ lt a c)
    (l : List α) : (sortDesc lt l).Pairwise (fun a b => ¬ lt a b) := by
  induction l with
  | nil => simp [sortDesc]
  | cons x xs ih => exact pairwise_insertDesc hasym htrans ih

/-- The head of the stable descending sort is a member of the list that
no member strictly beats. -/
lemma head_sortDesc_max
    (hasym : ∀ a b, lt a b → ¬ lt b a)
    (htrans : ∀ a b c, ¬ lt a b → ¬ lt b c → ¬ lt a c)
    (hirr : ∀ a, ¬ lt a a)
    {l : List α} {r : α} (h : (sortDesc lt l).head? = some r) :
    r ∈ l ∧ ∀ y ∈ l, ¬ lt r y := by
  obtain ⟨t, ht⟩ := List.head?_eq_some_iff.1 h
  have hpw : (sortDesc lt l).Pairwise (fun a b => ¬ lt a b) :=
    pairwise_sortDesc hasym htrans l
  rw [ht, List.pairwise_cons] at hpw
  have hrl : r ∈ l := mem_sortDesc.1 (ht ▸ List.mem_cons_self r t)
  refine ⟨hrl, fun y hy => ?_⟩
  have hys : y ∈ sortDesc lt l := mem_sortDesc.2 hy
  rw [ht] at hys
  rcases List.mem_cons.1 hys with rfl | hyt
  · exact hirr y
  · exact hpw.1 y hyt

end SortLemmas

/-! ### Helper lemmas: the cache as a Python dict -/

lemma cacheLookup_eq_none {c : UrlCache} {k : String}
    (h : ∀ kv ∈ c, kv.1 ≠ k) : cacheLookup c k = none := by
  induction c with
  | nil => rfl
  | cons kv rest ih =>
    obtain ⟨k0, v0⟩ := kv
    simp only [cacheLookup]
    rw [if_neg (h (k0, v0) (List.mem_cons_self _ rest))]
    exact ih (fun x hx => h x (List.mem_cons_of_mem _ hx))

lemma cacheLookup_insert_self {c : UrlCache} {k : String} {v : CacheEntry} :
    cacheLookup (cacheInsert k v c) k = some v := by
  induction c with
  | nil => simp [cacheInsert, cacheLookup]
  | cons kv rest ih =>
    obtain ⟨k0, v0⟩ := kv
    simp only [cacheInsert]
    split
    · simp [cacheLookup]
    · rename_i hne
      simp only [cacheLookup]
      rw [if_neg hne]
      exact ih

lemma cacheLookup_insert_ne {c : UrlCache} {k k2 : String} {v : CacheEntry}
    (h : k2 ≠ k) : cacheLookup (cacheInsert k v c) k2 = cacheLookup c k2 := by
  induction c with
  | nil =>
    simp only [cacheInsert, cacheLookup]
    rw [if_neg (fun hh => h hh.symm)]
  | cons kv rest ih =>
    obtain ⟨k0, v0⟩ := kv
    simp only [cacheInsert]
    split
    · rename_i hk
      simp only [cacheLookup]
      rw [if_neg (fun hh => h hh.symm), if_neg (hk ▸ (fun hh => h hh.symm) : ¬ k0 = k2)]
    · simp only [cacheLookup]
      split
      · rfl
      · exact ih

/-- In a dict with no repeated keys, every entry carrying the looked-up
key holds the looked-up value. -/
lemma cacheLookup_unique {c : UrlCache} {k : String} {e : CacheEntry}
    (hnd : (c.map Prod.fst).Nodup) (h : cacheLookup c k = some e) :
    ∀ kv ∈ c, kv.1 = k → kv.2 = e := by
  induction c with
  | nil => intro kv hkv; cases hkv
  | cons kv0 rest ih =>
    obtain ⟨k0, v0⟩ := kv0
    rw [List.map_cons, List.nodup_cons] at hnd
    intro kv hkv hkvk
    simp only [cacheLookup] at h
    rcases List.mem_cons.1 hkv with rfl | hmem
    · rw [if_pos hkvk] at h
      exact Option.some.inj h
    · by_cases h0 : k0 = k
      · exfalso
        apply hnd.1
        have hm : kv.1 ∈ List.map Prod.fst rest := List.mem_map_of_mem Prod.fst hmem
        rw [hkvk] at hm
        rw [h0]
        exact hm
      · rw [if_neg h0] at h
        exact ih hnd.2 h kv hmem hkvk

lemma mem_keys_cacheInsert {c : UrlCache} {k a : String} {v : CacheEntry}
    (h : a ∈ (cacheInsert k v c).map Prod.fst) :
    a = k ∨ a ∈ c.map Prod.fst := by
  induction c with
  | nil => simpa [cacheInsert] using h
  | cons kv rest ih =>
    obtain ⟨k0, v0⟩ := kv
    simp only [cacheInsert] at h
    split at h
    · rename_i hk
      rw [List.map_cons, List.mem_cons] at h
      rcases h with rfl | h
      · left; rfl
      · right
        rw [List.map_cons]
        exact List.mem_cons_of_mem _ h
    · rw [List.map_cons, List.mem_cons] at h
      rcases h with rfl | h
      · right
        rw [List.map_cons]
        exact List.mem_cons_self _ _
      · rcases ih h with h2 | h2
        · left; exact h2
        · right
          rw [List.map_cons]
          exact List.mem_cons_of_mem _ h2

lemma nodup_keys_cacheInsert {c : UrlCache} {k : String} {v : CacheEntry}
    (hnd : (c.map Prod.fst).Nodup) :
    ((cacheInsert k v c).map Prod.fst).Nodup := by
  induction c with
  | nil => simp [cacheInsert]
  | cons kv rest ih =>
    obtain ⟨k0, v0⟩ := kv
    rw [List.map_cons, List.nodup_cons] at hnd
    simp only [cacheInsert]
    split
    · rename_i hk
      rw [List.map_cons, List.nodup_cons]
      exact ⟨hk ▸ hnd.1, hnd.2⟩
    · rename_i hk
      rw [List.map_cons, List.nodup_cons]
      refine ⟨fun hmem => ?_, ih hnd.2⟩
      rcases mem_keys_cacheInsert hmem with h2 | h2
      · exact hk h2
      · exact hnd.1 h2

lemma nodup_keys_cleanup {c : UrlCache} {now : Nat}
    (hnd : (c.map Prod.fst).Nodup) :
    ((cleanupUrlCache now c).map Prod.fst).Nodup := by
  have hsub : List.Sublist (cleanupUrlCache now c) c := List.filter_sublist c
  exact hnd.sublist (hsub.map Prod.fst)

/-! ### The claims -/

set_option maxRecDepth 1000000
set_option maxHeartbeats 1600000

/-- C6: `_store_url_in_cache` returns the key
`md5(platform ++ "|" ++ url)` truncated to 8 hex characters, and
`_get_url_from_cache` with that key, immediately after the store with
nothing in between, always yields the original (url, platform) pair.
The last conjunct pins the key of one concrete pair to the value of
the reference MD5 implementation, showing `mkKey` is the real hash. -/
theorem store_key_resolve_roundtrip :
    (∀ (c : UrlCache) (now : Nat) (url platform : String),
        (storeUrlInCache c now url platform).1 = mkKey platform url
        ∧ getUrlFromCache (storeUrlInCache c now url platform).2
            ((storeUrlInCache c now url platform).1) = some (url, platform))
    ∧ mkKey "youtube" "https://youtu.be/x" = "e88aab16" := by
  constructor
  · intro c now url platform
    simp only [storeUrlInCache, getUrlFromCache, true_and]
    rw [cacheLookup_insert_self]
    rfl
  · decide

/-- C7 counterexample: the claim says an entry is evicted by an
intervening store made at least TTL (3600 s) after its creation; but
the source evicts only on `current - timestamp > 3600` (strictly), so
after a store at exactly creation + 3600 the original entry is still
resolvable. -/
theorem resolve_after_exact_ttl_store_cex :
    getUrlFromCache
        (storeUrlInCache (storeUrlInCache [] 0 "https://youtu.be/aaa" "youtube").2
          3600 "https://x.com/bbb" "twitter").2
        (mkKey "youtube" "https://youtu.be/aaa")
      = some ("https://youtu.be/aaa", "youtube") := by
  have h1 : mkKey "youtube" "https://youtu.be/aaa" = "dce0c4db" := by decide
  have h2 : mkKey "twitter" "https://x.com/bbb" = "f9d5fa92" := by decide
  simp only [storeUrlInCache, h1, h2]
  decide

/-- C7 (amended: eviction needs the intervening store to come strictly
more than TTL after the entry's creation): resolve on a key not in the
cache is a miss; an entry older than TTL (strictly) at the time of an
intervening store of a different key is evicted by it and then misses;
resolve itself never removes entries — it succeeds on any present
entry no matter how old.  The last conjunct shows a concrete eviction
one second past the TTL boundary. -/
theorem resolve_miss_lazy_eviction :
    (∀ (c : UrlCache) (k : String), (∀ kv ∈ c, kv.1 ≠ k) →
        getUrlFromCache c k = none)
    ∧ (∀ (c : UrlCache) (k u p : String) (t now : Nat) (u2 p2 : String),
        (c.map Prod.fst).Nodup → cacheLookup c k = some (u, p, t) →
        now - t > cacheCleanupTime → k ≠ mkKey p2 u2 →
        getUrlFromCache (storeUrlInCache c now u2 p2).2 k = none)
    ∧ (∀ (c : UrlCache) (k u p : String) (t : Nat),
        cacheLookup c k = some (u, p, t) → getUrlFromCache c k = some (u, p))
    ∧ getUrlFromCache
        (storeUrlInCache (storeUrlInCache [] 0 "https://youtu.be/aaa" "youtube").2
          3601 "https://x.com/bbb" "twitter").2
        (mkKey "youtube" "https://youtu.be/aaa") = none := by
  have h1 : mkKey "youtube" "https://youtu.be/aaa" = "dce0c4db" := by decide
  have h2 : mkKey "twitter" "https://x.com/bbb" = "f9d5fa92" := by decide
  refine ⟨?_, ?_, ?_, ?_⟩
  · intro c k h
    simp only [getUrlFromCache]
    rw [cacheLookup_eq_none h]
    rfl
  · intro c k u p t now u2 p2 hnd hk hexp hne
    simp only [storeUrlInCache, getUrlFromCache]
    rw [cacheLookup_insert_ne hne, cacheLookup_eq_none]
    · rfl
    · intro kv hkv hkvk
      have hkvc := List.mem_filter.1 hkv
      have hveq : kv.2 = (u, p, t) := cacheLookup_unique hnd hk kv hkvc.1 hkvk
      have hle : now - kv.2.2.2 ≤ cacheCleanupTime := of_decide_eq_true hkvc.2
      rw [hveq] at hle
      have hle2 : now - t ≤ cacheCleanupTime := hle
      omega
  · intro c k u p t hk
    simp only [getUrlFromCache]
    rw [hk]
    rfl
  · simp only [storeUrlInCache, h1, h2]
    decide

/-- C10: the cache holds at most one entry per key — a store whose
truncated-MD5 key equals an existing entry's key overwrites it, and a
later resolve of that key yields only the most recently stored pair;
store preserves key uniqueness.  The last two conjuncts exhibit a real
truncated-MD5 collision of two distinct (platform, url) pairs and the
overwrite it causes. -/
theorem cache_overwrite_single_entry :
    (∀ (c : UrlCache) (t1 t2 : Nat) (u1 p1 u2 p2 : String),
        mkKey p1 u1 = mkKey p2 u2 →
        getUrlFromCache (storeUrlInCache (storeUrlInCache c t1 u1 p1).2 t2 u2 p2).2
          (mkKey p1 u1) = some (u2, p2))
    ∧ (∀ (c : UrlCache) (t : Nat) (u p : String),
        (c.map Prod.fst).Nodup →
        (((storeUrlInCache c t u p).2).map Prod.fst).Nodup)
    ∧ mkKey "youtube" "https://u/12330" = mkKey "youtube" "https://u/33978"
    ∧ getUrlFromCache
        (storeUrlInCache (storeUrlInCache [] 0 "https://u/12330" "youtube").2
          5 "https://u/33978" "youtube").2
        (mkKey "youtube" "https://u/12330") = some ("https://u/33978", "youtube") := by
  have h1 : mkKey "youtube" "https://u/12330" = "000a7f7f" := by decide
  have h2 : mkKey "youtube" "https://u/33978" = "000a7f7f" := by decide
  refine ⟨?_, ?_, ?_, ?_⟩
  · intro c t1 t2 u1 p1 u2 p2 hcol
    rw [hcol]
    simp only [storeUrlInCache, getUrlFromCache]
    rw [cacheLookup_insert_self]
    rfl
  · intro c t u p hnd
    exact nodup_keys_cacheInsert (nodup_keys_cleanup hnd)
  · rw [h1, h2]
  · simp only [storeUrlInCache, h1, h2]
    decide

/-- C1 (code_bug evidence): for a (platform, url) pair whose direct
payload exceeds 64 UTF-8 bytes, `build_action_keyboard` does store the
url and emit the cached-key payload, and `handle_convert_to_audio`
would resolve that payload back to the original pair — but app.py
registers the handler under the pattern `^convert_audio\|`, which the
cached payload `convert_audio_cached|<key>` does not match (the
character after `convert_audio` is `_`, not `|`), so the cached action
is never dispatched and the audio-only acquisition never runs.  The
last conjunct shows the direct form does match the route, isolating
the slip to the cached form. -/
theorem convert_audio_cached_payload_never_routed :
    64 < (utf8Bytes (directPayload "youtube"
        "https://www.youtube.com/watch?v=dQw4w9WgXcQ&list=PLabcdefghijklmnopqrstuv")).length
    ∧ (buildActionKeyboard [] 0
          "https://www.youtube.com/watch?v=dQw4w9WgXcQ&list=PLabcdefghijklmnopqrstuv"
          "youtube").1
      = "convert_audio_cached|" ++ mkKey "youtube"
          "https://www.youtube.com/watch?v=dQw4w9WgXcQ&list=PLabcdefghijklmnopqrstuv"
    ∧ resolveCallback
        (buildActionKeyboard [] 0
          "https://www.youtube.com/watch?v=dQw4w9WgXcQ&list=PLabcdefghijklmnopqrstuv"
          "youtube").2
        (buildActionKeyboard [] 0
          "https://www.youtube.com/watch?v=dQw4w9WgXcQ&list=PLabcdefghijklmnopqrstuv"
          "youtube").1
      = some ("https://www.youtube.com/watch?v=dQw4w9WgXcQ&list=PLabcdefghijklmnopqrstuv",
              "youtube")
    ∧ callbackRouteMatches
        (buildActionKeyboard [] 0
          "https://www.youtube.com/watch?v=dQw4w9WgXcQ&list=PLabcdefghijklmnopqrstuv"
          "youtube").1 = false
    ∧ callbackRouteMatches (directPayload "youtube" "https://youtu.be/x") = true := by
  have h1 : mkKey "youtube"
      "https://www.youtube.com/watch?v=dQw4w9WgXcQ&list=PLabcdefghijklmnopqrstuv"
      = "6dbdbd3f" := by decide
  simp only [buildActionKeyboard, directPayload, storeUrlInCache, h1]
  decide

/-- C2 counterexample: a batch of two files where the first file's
send raises — the failing file is deleted, but the second file is
neither sent nor deleted, so deletion is not guaranteed for every file
of the batch and the failure is not isolated from the rest. -/
theorem send_files_batch_abort_cex :
    sendFilesWithButtons [("a.mp4", false), ("b.mp4", true)] = ([], ["a.mp4"], true)
    ∧ "b.mp4" ∉ (sendFilesWithButtons [("a.mp4", false), ("b.mp4", true)]).2.1 := by
  decide

/-- C2 (amended: deletion is guaranteed per attempted file, but a send
failure aborts the batch): the dispatcher sends the files of the
longest all-successful prefix, deletes exactly those files plus the
first failing one (whose finally-block still runs), logs an error iff
some send fails, and never propagates the exception to its caller
(it always returns a value). -/
theorem send_files_cleanup_characterization :
    ∀ fs : List (String × Bool),
      sendFilesWithButtons fs =
        ((fs.takeWhile (fun p => p.2)).map (fun p => p.1),
         (fs.takeWhile (fun p => p.2)).map (fun p => p.1)
           ++ ((fs.dropWhile (fun p => p.2)).head?.map (fun p => p.1)).toList,
         fs.any (fun p => !p.2)) := by
  intro fs
  induction fs with
  | nil => rfl
  | cons f rest ih =>
    obtain ⟨name, ok⟩ := f
    cases ok with
    | true =>
      simp only [sendFilesWithButtons, ih, List.takeWhile_cons, List.dropWhile_cons,
        List.any_cons]
      simp
    | false =>
      simp only [sendFilesWithButtons, List.takeWhile_cons, List.dropWhile_cons,
        List.any_cons]
      simp

/-- C3 counterexample: `detect_platform` searches the whole URL
case-sensitively, not the host case-insensitively.  First: a URL whose
host matches no platform pattern is classified as facebook because the
pattern occurs in its query string.  Second: a URL whose host matches
exactly the youtube pattern (case-insensitively) is classified as
unknown because the host is upper-case. -/
theorem detect_platform_not_host_cex :
    (detectPlatform "https://evil.example/a?x=facebook.com" = "facebook"
      ∧ PLATFORM_PATTERNS.all
          (fun pp => !specHostMatches pp.2 "https://evil.example/a?x=facebook.com") = true)
    ∧ (detectPlatform "https://WWW.YOUTUBE.COM/watch?v=dQw4w9WgXcQ" = "unknown"
      ∧ specHostMatches ["youtube.com", "youtu.be", "m.youtube.com"]
          "https://WWW.YOUTUBE.COM/watch?v=dQw4w9WgXcQ" = true
      ∧ PLATFORM_PATTERNS.all
          (fun pp => !specHostMatches pp.2 "https://WWW.YOUTUBE.COM/watch?v=dQw4w9WgXcQ"
            || (pp.1 == "youtube")) = true) := by
  decide

/-- C3 (amended: matching is a case-sensitive substring search over the
whole URL, in pattern order): when no pattern's alternative occurs
anywhere in the URL the classifier returns unknown, and when some
pattern matches and every matching pattern belongs to the same
platform, that platform is returned; with two concrete instances. -/
theorem detect_platform_substring_first_match :
    ∀ url : String,
      ((∀ pp ∈ PLATFORM_PATTERNS, reSearchPattern pp.2 url = false) →
        detectPlatform url = "unknown")
      ∧ (∀ pp ∈ PLATFORM_PATTERNS, reSearchPattern pp.2 url = true →
          (∀ qq ∈ PLATFORM_PATTERNS, reSearchPattern qq.2 url = true → qq.1 = pp.1) →
          detectPlatform url = pp.1) := by
  intro url
  constructor
  · intro h
    unfold detectPlatform
    rw [List.find?_eq_none.2 (fun x hx => by simp [h x hx])]
  · intro pp hpp hsearch huniq
    unfold detectPlatform
    cases hf : PLATFORM_PATTERNS.find? (fun qq => reSearchPattern qq.2 url) with
    | none =>
      have := List.find?_eq_none.1 hf pp hpp
      simp [hsearch] at this
    | some qq =>
      have hq1 : reSearchPattern qq.2 url = true := by
        have := List.find?_some hf
        simpa using this
      have hq2 : qq ∈ PLATFORM_PATTERNS := List.mem_of_find?_eq_some hf
      exact huniq qq hq2 hq1

/-- C4 counterexample: `download_direct` with a zero engine result and
an empty target directory reports success (True) with no file sent,
instead of surfacing the missing file as a failure. -/
theorem download_direct_no_file_success_cex :
    (downloadDirectOutcome 0 []).1 = true ∧ (downloadDirectOutcome 0 []).2 = none := by
  decide

/-- C4 (amended: only the TikTok fallback surfaces the no-matching-file
case as failure; `download_direct` reports success whenever the engine
result is zero, even with no file found): the TikTok fallback fails on
a zero result without video files; both report failure on a non-zero
result; `download_direct` reports success on every zero result. -/
theorem engine_zero_no_file_outcomes :
    (∀ files : List (String × Nat),
        files.filter (fun f => isTiktokVideoFile f.1) = [] →
        tiktokFallbackOutcome 0 files = (false, none))
    ∧ (∀ (r : Int) (files : List (String × Nat)), r ≠ 0 →
        tiktokFallbackOutcome r files = (false, none)
        ∧ downloadDirectOutcome r files = (false, none))
    ∧ (∀ files : List (String × Nat), (downloadDirectOutcome 0 files).1 = true) := by
  refine ⟨?_, ?_, ?_⟩
  · intro files h
    simp [tiktokFallbackOutcome, h, pyMax]
  · intro r files hr
    constructor <;> simp [tiktokFallbackOutcome, downloadDirectOutcome, hr]
  · intro files
    cases hm : pyMax ctimeLt files with
    | none => simp [downloadDirectOutcome, hm]
    | some f => simp [downloadDirectOutcome, hm]

/-! ### Order facts for the stream-selection comparisons -/

lemma qualityLt_asymm : ∀ a b : PStream, qualityLt a b → ¬ qualityLt b a := by
  intro a b
  unfold qualityLt
  omega

lemma qualityLt_le_trans :
    ∀ a b c : PStream, ¬ qualityLt a b → ¬ qualityLt b c → ¬ qualityLt a c := by
  intro a b c
  unfold qualityLt
  omega

lemma qualityLt_irrefl : ∀ a : PStream, ¬ qualityLt a a := by
  intro a
  unfold qualityLt
  omega

lemma audioLt_asymm : ∀ a b : PStream, audioLt a b → ¬ audioLt b a := by
  intro a b
  unfold audioLt rankLt
  omega

lemma audioLt_le_trans :
    ∀ a b c : PStream, ¬ audioLt a b → ¬ audioLt b c → ¬ audioLt a c := by
  intro a b c
  unfold audioLt rankLt
  omega

lemma audioLt_irrefl : ∀ a : PStream, ¬ audioLt a a := by
  intro a
  unfold audioLt rankLt
  omega

/-- C5 counterexample: a single MP4 stream flagged video-only.  The
source's `_select_best_piped_stream` returns it — the video-only flag
is never consulted — while the spec's selectMuxed (which filters to
non-video-only streams) returns none. -/
theorem select_best_piped_video_only_cex :
    selectBestPipedStream
        [{ container := some "mp4", videoOnly := true, qualityLabel := some "720p" }]
      = some { container := some "mp4", videoOnly := true, qualityLabel := some "720p" }
    ∧ selectMuxedSpec
        [{ container := some "mp4", videoOnly := true, qualityLabel := some "720p" }]
      = none := by
  constructor
  · rfl
  · rfl

/-- C5 (amended: the filter keeps every MP4-container stream, whether
or not it is video-only): the selection returns none exactly when no
MP4 stream exists, and otherwise returns an MP4 member of the input
that no MP4 member strictly beats on parsed quality; over MP4 entries
of qualities [480, 1080, 720] it returns the 1080 entry. -/
theorem select_best_piped_mp4_top_quality :
    (∀ ss : List PStream, selectBestPipedStream ss = none ↔ ss.filter isMp4Stream = [])
    ∧ (∀ (ss : List PStream) (r : PStream), selectBestPipedStream ss = some r →
        isMp4Stream r = true ∧ r ∈ ss
        ∧ ∀ y ∈ ss, isMp4Stream y = true → ¬ qualityLt r y)
    ∧ selectBestPipedStream
        [{ container := some "mp4", qualityLabel := some "480p" },
         { container := some "mp4", qualityLabel := some "1080p" },
         { container := some "mp4", qualityLabel := some "720p" }]
      = some { container := some "mp4", qualityLabel := some "1080p" } := by
  refine ⟨?_, ?_, ?_⟩
  · intro ss
    simp only [selectBestPipedStream]
    split
    · rename_i h
      simp [h]
    · rename_i h
      constructor
      · intro hh
        rw [List.head?_eq_none_iff, sortDesc_eq_nil_iff] at hh
        exact absurd hh h
      · intro hh
        exact absurd hh h
  · intro ss r h
    simp only [selectBestPipedStream] at h
    split at h
    · cases h
    · have hmax := head_sortDesc_max qualityLt_asymm qualityLt_le_trans qualityLt_irrefl h
      have hmf := List.mem_filter.1 hmax.1
      exact ⟨hmf.2, hmf.1, fun y hy hmp4 => hmax.2 y (List.mem_filter.2 ⟨hy, hmp4⟩)⟩
  · rfl

/-- C8: the split selection returns none exactly when there is no
video-only stream or no audio stream; otherwise it pairs a video-only
member that no video-only member beats on parsed quality with an audio
member that no audio member beats on the two-level (MPEG-4 family,
bitrate) key; among audio streams of equal family score the higher
bitrate wins, and concretely two same-family audio streams of bitrates
96000 and 128000 yield the 128000 one. -/
theorem select_split_top_pair :
    (∀ vs as1 : List PStream, selectSplit vs as1 = none ↔
        vs.filter (fun s => s.videoOnly) = [] ∨ as1 = [])
    ∧ (∀ (vs as1 : List PStream) (v a : PStream), selectSplit vs as1 = some (v, a) →
        (v ∈ vs ∧ v.videoOnly = true
          ∧ ∀ w ∈ vs, w.videoOnly = true → ¬ qualityLt v w)
        ∧ (a ∈ as1 ∧ ∀ b ∈ as1, ¬ audioLt a b))
    ∧ (∀ (vs as1 : List PStream) (v a b : PStream),
        selectSplit vs as1 = some (v, a) → b ∈ as1 →
        (audioRank b).1 = (audioRank a).1 → (audioRank b).2 ≤ (audioRank a).2)
    ∧ selectSplit [{ videoOnly := true, qualityLabel := some "1080p" }]
        [{ mimeType := some "audio/webm", bitrate := some 96000 },
         { mimeType := some "audio/webm", bitrate := some 128000 }]
      = some ({ videoOnly := true, qualityLabel := some "1080p" },
              { mimeType := some "audio/webm", bitrate := some 128000 }) := by
  have hsel : ∀ (vs as1 : List PStream) (v a : PStream), selectSplit vs as1 = some (v, a) →
      (v ∈ vs ∧ v.videoOnly = true
        ∧ ∀ w ∈ vs, w.videoOnly = true → ¬ qualityLt v w)
      ∧ (a ∈ as1 ∧ ∀ b ∈ as1, ¬ audioLt a b) := by
    intro vs as1 v a h
    simp only [selectSplit] at h
    split at h
    · rename_i v2 a2 hv2 ha2
      injection h with h
      rw [Prod.mk.injEq] at h
      obtain ⟨rfl, rfl⟩ := h
      have hvmax := head_sortDesc_max qualityLt_asymm qualityLt_le_trans qualityLt_irrefl hv2
      have hamax := head_sortDesc_max audioLt_asymm audioLt_le_trans audioLt_irrefl ha2
      have hvf := List.mem_filter.1 hvmax.1
      refine ⟨⟨hvf.1, hvf.2, fun w hw hwv => hvmax.2 w (List.mem_filter.2 ⟨hw, hwv⟩)⟩,
        hamax.1, hamax.2⟩
    · cases h
  refine ⟨?_, hsel, ?_, ?_⟩
  · intro vs as1
    simp only [selectSplit]
    split
    · rename_i v2 a2 hv2 ha2
      constructor
      · intro hh; cases hh
      · intro hh
        rcases hh with hh | hh
        · rw [hh] at hv2
          simp [sortDesc] at hv2
        · rw [hh] at ha2
          simp [sortDesc] at ha2
    · rename_i hnotboth
      constructor
      · intro _
        by_cases hv : vs.filter (fun s => s.videoOnly) = []
        · exact Or.inl hv
        · right
          by_cases ha : as1 = []
          · exact ha
          · exfalso
            have hv3 : sortDesc qualityLt (vs.filter (fun s => s.videoOnly)) ≠ [] :=
              fun hnil => hv (sortDesc_eq_nil_iff.1 hnil)
            have ha3 : sortDesc audioLt as1 ≠ [] :=
              fun hnil => ha (sortDesc_eq_nil_iff.1 hnil)
            obtain ⟨v2, t1, hv2⟩ := List.exists_cons_of_ne_nil hv3
            obtain ⟨a2, t2, ha2⟩ := List.exists_cons_of_ne_nil ha3
            exact hnotboth v2 a2 (by rw [hv2]; rfl) (by rw [ha2]; rfl)
      · intro _
        rfl
  · intro vs as1 v a b h hb hfam
    have hmax := (hsel vs as1 v a h).2.2 b hb
    unfold audioLt rankLt at hmax
    omega
  · rfl

/-! ### Suffix-disjointness for the delivery buckets -/

lemma endsWithAny_disjoint {n : String} {xs ys : List String}
    (h : ∀ x ∈ xs, ∀ y ∈ ys, ¬ (x.data <:+ y.data) ∧ ¬ (y.data <:+ x.data)) :
    endsWithAny n xs = true → endsWithAny n ys = false := by
  intro hx
  by_contra hy
  rw [Bool.not_eq_false] at hy
  obtain ⟨x, hxm, hxs⟩ := List.any_eq_true.1 hx
  obtain ⟨y, hym, hys⟩ := List.any_eq_true.1 hy
  have hx2 : x.data <:+ n.data := of_decide_eq_true hxs
  have hy2 : y.data <:+ n.data := of_decide_eq_true hys
  rcases List.suffix_or_suffix_of_suffix hx2 hy2 with hss | hss
  · exact (h x hxm y hym).1 hss
  · exact (h x hxm y hym).2 hss

/-- C9: delivery classification by filename extension uses exactly the
four buckets of the source — a file goes to the video channel iff its
lowercased name ends in one of mp4/avi/mov/mkv, to the image channel
iff it ends in one of jpg/jpeg/png/gif/webp, to the audio channel iff
it ends in one of mp3/m4a/flac/wav/aac/ogg, and to the generic
document channel iff none of these match. -/
theorem classify_delivery_buckets :
    ∀ name : String,
      (classifyDelivery name = FileBucket.video ↔
        endsWithAny (lowerString name) videoExts = true)
      ∧ (classifyDelivery name = FileBucket.image ↔
        endsWithAny (lowerString name) imageExts = true)
      ∧ (classifyDelivery name = FileBucket.audio ↔
        endsWithAny (lowerString name) audioExts = true)
      ∧ (classifyDelivery name = FileBucket.document ↔
        (endsWithAny (lowerString name) videoExts = false
          ∧ endsWithAny (lowerString name) imageExts = false
          ∧ endsWithAny (lowerString name) audioExts = false)) := by
  intro name
  have dVI : ∀ x ∈ videoExts, ∀ y ∈ imageExts,
      ¬ (x.data <:+ y.data) ∧ ¬ (y.data <:+ x.data) := by decide
  have dVA : ∀ x ∈ videoExts, ∀ y ∈ audioExts,
      ¬ (x.data <:+ y.data) ∧ ¬ (y.data <:+ x.data) := by decide
  have dIA : ∀ x ∈ imageExts, ∀ y ∈ audioExts,
      ¬ (x.data <:+ y.data) ∧ ¬ (y.data <:+ x.data) := by decide
  cases hv : endsWithAny (lowerString name) videoExts with
  | true =>
    have hi := endsWithAny_disjoint dVI hv
    have ha := endsWithAny_disjoint dVA hv
    simp [classifyDelivery, hv, hi, ha]
  | false =>
    cases hi : endsWithAny (lowerString name) imageExts with
    | true =>
      have ha := endsWithAny_disjoint dIA hi
      simp [classifyDelivery, hv, hi, ha]
    | false =>
      cases ha : endsWithAny (lowerString name) audioExts with
      | true => simp [classifyDelivery, hv, hi, ha]
      | false => simp [classifyDelivery, hv, hi, ha]

end Hunzii
